import Mathlib

/-!
Verification of the gmn agent loop, its model-fallback policy, the session
store and the built-in tools, against a shallow embedding of the Go source.

Conventions of the embedding:
* Go strings are Lean `String`s where only character content matters, and
  `List Nat` (byte lists) where byte-level slicing matters (shell output
  truncation, edit_file replacement).
* Go `map[string]interface{}` values become association lists over a small
  JSON-value type `JVal`.
* Streaming and user interaction are determinized: the backend client is a
  function from (iteration index, model name) to an attempt result, and the
  confirmation prompt is an oracle indexed by the number of prompts shown.
* Machine integers are `Nat`/`Int`; no overflow is relevant to the claims.
-/

set_option autoImplicit false

namespace Gmn

/-- JSON-like values, the embedding of Go `interface{}` data decoded from or
encoded to JSON (association lists stand for JSON objects). -/
inductive JVal where
  | str (v : String)
  | num (v : Int)
  | bool (v : Bool)
  | null
  | arr (vs : List JVal)
  | obj (fs : List (String × JVal))

variable {α : Type}

/-- Embedding of Go `strings.HasPrefix`-style matching on lists: `isPrefixB
needle hay` is true iff `needle` is an initial segment of `hay`. -/
def isPrefixB [DecidableEq α] : List α → List α → Bool
  | [], _ => true
  | _ :: _, [] => false
  | a :: as, b :: bs => if a = b then isPrefixB as bs else false

/-- Embedding of Go `strings.Index` (generalized to lists): scan positions
left to right and return the first index where `needle` matches, `none` if
there is no match. -/
def goIndexAux [DecidableEq α] : List α → List α → Nat → Option Nat
  | [], needle, i => if isPrefixB needle [] then some i else none
  | a :: t, needle, i =>
    if isPrefixB needle (a :: t) then some i else goIndexAux t needle (i + 1)

/-- Go `strings.Index` on lists: first match position, or `none`. -/
def goIndex [DecidableEq α] (hay needle : List α) : Option Nat :=
  goIndexAux hay needle 0

/-- Embedding of Go `strings.Contains` on lists. -/
def goContains [DecidableEq α] (hay needle : List α) : Bool :=
  (goIndex hay needle).isSome

/-- Occurrence predicate: `occursAtL hay needle i` says `needle` occurs in `hay` starting at index `i`. -/
def occursAtL [DecidableEq α] (hay needle : List α) (i : Nat) : Prop :=
  i + needle.length ≤ hay.length ∧ (hay.drop i).take needle.length = needle

/-- Embedding of Go `strings.Replace(s, old, new, 1)`: replace the first
occurrence of `old` (insert at the front when `old` is empty), leave `s`
unchanged when `old` does not occur. -/
def goReplaceOnce [DecidableEq α] (s old new : List α) : List α :=
  match goIndex s old with
  | none => s
  | some i => s.take i ++ new ++ s.drop (i + old.length)

/-- Go `strings.Contains` on strings (character-level content). -/
def strContains (s sub : String) : Bool :=
  goContains s.toList sub.toList

/-- Embedding of `isRetryableError` (src/cmd/root.go): true when the error
message contains one of the hard-coded markers. -/
def isRetryableError (errStr : String) : Bool :=
  strContains errStr "429" ||
  strContains errStr "404" ||
  strContains errStr "503" ||
  strContains errStr "RESOURCE_EXHAUSTED" ||
  strContains errStr "UNAVAILABLE" ||
  strContains errStr "NOT_FOUND" ||
  strContains errStr "model not found" ||
  strContains errStr "Model not found"

/-- ASCII lowering of a string (computable form used by the spec-worded
predicate below). -/
def toLowerStr (s : String) : String :=
  String.mk (s.toList.map Char.toLower)

/-- The retryability predicate as worded by the specification and claim C7:
the six status markers, or the phrase "model not found" matched
case-insensitively. Used only to compare the spec's wording with the code. -/
def specIsRetryable (errStr : String) : Bool :=
  strContains errStr "429" ||
  strContains errStr "404" ||
  strContains errStr "503" ||
  strContains errStr "RESOURCE_EXHAUSTED" ||
  strContains errStr "UNAVAILABLE" ||
  strContains errStr "NOT_FOUND" ||
  strContains (toLowerStr errStr) "model not found"

/-- The eight substrings `isRetryableError` actually searches for. -/
def retryNeedles : List String :=
  ["429", "404", "503", "RESOURCE_EXHAUSTED", "UNAVAILABLE", "NOT_FOUND",
   "model not found", "Model not found"]

/-- Embedding of `FallbackModels` (src/cmd/root.go). -/
def FallbackModels : List String :=
  ["gemini-3-pro-preview", "gemini-3-flash-preview", "gemini-2.5-flash"]

/-- Embedding of `GetFallbackModels` (src/cmd/root.go): start the fallback
list at the current model's position; an unknown model keeps index 0. -/
def GetFallbackModels (currentModel : String) : List String :=
  let startIdx := (FallbackModels.findIdx? (· == currentModel)).getD 0
  if startIdx > 0 then FallbackModels.drop startIdx else FallbackModels

/-! ## Data model of the conversation (internal/api, used by src/cmd/chat.go)

The `api` package itself is not under src/, only its callers; the field set
below is reconstructed from its uses in src/cmd/chat.go and from the spec's
data model (§3) and streaming contract (§4.3). -/

/-- A `function_call` emitted by the model: id, tool name, arguments. -/
structure FunctionCall where
  id : String
  name : String
  args : List (String × JVal)

/-- A `function_response` the loop appends after resolving a tool call. -/
structure FunctionResp where
  id : String
  name : String
  response : List (String × JVal)

/-- Modelled from the spec: a Part is text, a function call, or a function
response; a function-call Part may carry opaque `thought_signature` bytes,
which src/cmd/chat.go forwards without inspecting (api package not in src/). -/
structure Part where
  text : String := ""
  functionCall : Option FunctionCall := none
  functionResp : Option FunctionResp := none
  thoughtSignature : List Nat := []

/-- One conversation turn: a role and its parts. -/
structure Content where
  role : String
  parts : List Part

/-- Token usage reported on a terminal stream chunk. -/
structure Usage where
  promptTokenCount : Nat
  candidatesTokenCount : Nat

/-- Modelled from the spec: a decoded stream event as consumed by
src/cmd/chat.go; `type` is one of "text", "tool_call", "done", "error", and
`toolCallPart` carries the full wire Part for a tool call (api package not
in src/). -/
structure StreamEvent where
  type : String := ""
  error : String := ""
  usage : Option Usage := none
  toolCall : Option FunctionCall := none
  toolCallPart : Option Part := none
  text : String := ""

/-- Result of one `client.GenerateStream` call: a synchronous open error, or
the determinized list of events the stream will deliver. -/
inductive AttemptResult where
  | fail (err : String)
  | stream (events : List StreamEvent)

/-- Session token counters (`sessionTokens` in src/cmd/chat.go). -/
structure Tokens where
  input : Nat
  output : Nat

/-- Confirmation prompt outcome (internal/confirmation). -/
inductive Outcome where
  | proceedOnce
  | proceedAlways
  | cancel
deriving DecidableEq

/-- A registered built-in tool, restricted to the capabilities the loop
uses: name, confirmation flag, and an execute that returns a result map or
an error (Go returns `(map, err)`; an error is wrapped by the caller). -/
structure ToolSpec where
  name : String
  requiresConfirmation : Bool
  execute : List (String × JVal) → Except String (List (String × JVal))

/-- Embedding of `Registry.Get` (by-name lookup). -/
def registryGet (registry : List ToolSpec) (n : String) : Option ToolSpec :=
  registry.find? (fun t => t.name == n)

/-- The determinized environment of one `processWithToolLoop` call: the
backend client per iteration, the tool registry, and the confirmation
oracle (the n-th prompt's outcome or prompt error). -/
structure Env where
  clients : Nat → String → AttemptResult
  registry : List ToolSpec
  confirm : Nat → Except String Outcome

/-- Mutable state owned by the loop while a submit runs. -/
structure LoopState where
  history : List Content
  allowList : List String
  tokens : Tokens
  confirmCount : Nat
  clock : Nat

/-! ## Model fallback (src/cmd/chat.go `generateStreamWithFallback`) -/

/-- The body of `generateStreamWithFallback`'s attempt loop: on attempt 0
the request keeps its original model; later attempts overwrite it with the
fallback entry. A retryable open error moves to the next model unless this
was the last attempt. Returns the stream events and the model actually
used. -/
def generateStreamWithFallbackAux (client : String → AttemptResult) :
    List String → Nat → String → Except String (List StreamEvent × String)
  | [], _, _ => .error "all fallback models failed"
  | m :: rest, attempt, reqModel =>
    let reqModel := if attempt > 0 then m else reqModel
    match client reqModel with
    | .fail err =>
      if isRetryableError err = true ∧ rest ≠ [] then
        generateStreamWithFallbackAux client rest (attempt + 1) reqModel
      else .error err
    | .stream events => .ok (events, reqModel)

/-- Embedding of `generateStreamWithFallback` (src/cmd/chat.go): try the
requested model, then the remaining fallback models on retryable errors. -/
def generateStreamWithFallback (client : String → AttemptResult)
    (modelName : String) : Except String (List StreamEvent × String) :=
  generateStreamWithFallbackAux client (GetFallbackModels modelName) 0 modelName

/-! ## Stream consumption (the `for event := range stream` loop) -/

/-- Embedding of the event-consumption loop in `processWithToolLoop`
(src/cmd/chat.go): an error event aborts; a done event accumulates usage
into the session token counters; a tool-call event stores the full Part
(or builds one without a signature when the stream gave none); any other
event appends its text to the iteration buffer. Token counters survive an
error (they are a package-level variable in the source). -/
def consumeStream : List StreamEvent → String → List Part → Tokens →
    Except String (String × List Part) × Tokens
  | [], buf, pending, tk => (.ok (buf, pending), tk)
  | e :: rest, buf, pending, tk =>
    if e.type = "error" then (.error e.error, tk)
    else
      let tk :=
        if e.type = "done" then
          match e.usage with
          | some u => ⟨tk.input + u.promptTokenCount, tk.output + u.candidatesTokenCount⟩
          | none => tk
        else tk
      if e.type = "tool_call" ∧ e.toolCall.isSome then
        let p :=
          match e.toolCallPart with
          | some part => part
          | none => { functionCall := e.toolCall }
        consumeStream rest buf (pending ++ [p]) tk
      else
        consumeStream rest (if e.text ≠ "" then buf ++ e.text else buf) pending tk

/-! ## Tool-call sub-protocol (the `for _, fcPart := range pendingToolCallParts`
loop of `processWithToolLoop`, src/cmd/chat.go) -/

/-- The model turn committing a pending function-call Part: the original
Part is appended verbatim (thought signature included). -/
def fcTurn (p : Part) : Content := ⟨"model", [p]⟩

/-- The user turn carrying a function response. -/
def frTurn (fr : FunctionResp) : Content :=
  ⟨"user", [{ functionResp := some fr }]⟩

/-- Embedding of one pending-call step: derive the response id (the call's
id, or `<name>-<nanos>` from the clock), look the tool up, run the
confirmation gate when required, execute, and append the model/user turn
pair. A confirmation prompt error aborts the submit; a cancel or an
unknown tool only records an error response and continues. -/
def execOneToolCall (env : Env) (st : LoopState) (fcPart : Part) :
    Except String Unit × LoopState :=
  let fc := fcPart.functionCall.getD { id := "", name := "", args := [] }
  let (responseID, clock) :=
    if fc.id ≠ "" then (fc.id, st.clock)
    else (fc.name ++ "-" ++ toString st.clock, st.clock + 1)
  let st := { st with clock := clock }
  match registryGet env.registry fc.name with
  | none =>
    (.ok (), { st with history := st.history ++
      [fcTurn fcPart,
       frTurn ⟨responseID, fc.name, [("error", .str ("unknown tool: " ++ fc.name))]⟩] })
  | some tool =>
    let gated := tool.requiresConfirmation = true ∧ fc.name ∉ st.allowList
    let outcome :=
      if gated then env.confirm st.confirmCount else .ok .proceedOnce
    let st := if gated then { st with confirmCount := st.confirmCount + 1 } else st
    match outcome with
    | .error e => (.error ("confirmation error: " ++ e), st)
    | .ok .cancel =>
      (.ok (), { st with history := st.history ++
        [fcTurn fcPart,
         frTurn ⟨responseID, fc.name, [("error", .str "operation cancelled by user")]⟩] })
    | .ok oc =>
      let st :=
        if oc = .proceedAlways then { st with allowList := st.allowList ++ [fc.name] }
        else st
      let result :=
        match tool.execute fc.args with
        | .ok r => r
        | .error e => [("error", .str e)]
      (.ok (), { st with history := st.history ++
        [fcTurn fcPart, frTurn ⟨responseID, fc.name, result⟩] })

/-- Drain the pending tool calls in order; a confirmation error stops the
drain and aborts the submit, keeping the pairs committed so far. -/
def execToolCalls (env : Env) (st : LoopState) :
    List Part → Except String Unit × LoopState
  | [] => (.ok (), st)
  | p :: ps =>
    match execOneToolCall env st p with
    | (.ok (), st') => execToolCalls env st' ps
    | (.error e, st') => (.error e, st')

/-! ## The main iteration of `processWithToolLoop` -/

/-- The `maxIterations` constant (src/cmd/chat.go). -/
def maxIterations : Nat := 10

/-- Result of the bounded iteration: outcome, loop state, the final value of
the local `modelName` variable, and the number of backend calls issued
(one `generateStreamWithFallback` per iteration). The last two are ghost
observables of locals, not values the Go function returns. -/
structure LoopOut where
  result : Except String Unit
  state : LoopState
  modelName : String
  backendCalls : Nat

/-- Embedding of the `for i := 0; i < maxIterations; i++` loop of
`processWithToolLoop`: open a stream under the fallback policy, adopt the
actually-used model for later iterations, consume the stream; with no
pending tool calls append the buffered text as a model turn and succeed,
otherwise drain the tool calls and iterate. Exhausting the bound fails
with the iteration-limit error. -/
def loopAux (env : Env) : Nat → Nat → String → LoopState → LoopOut
  | _, 0, modelName, st =>
    ⟨.error ("max tool iterations (" ++ toString maxIterations ++ ") reached"),
     st, modelName, 0⟩
  | iterIdx, fuel + 1, modelName, st =>
    match generateStreamWithFallback (env.clients iterIdx) modelName with
    | .error e => ⟨.error e, st, modelName, 1⟩
    | .ok (events, usedModel) =>
      let modelName := if usedModel ≠ modelName then usedModel else modelName
      let (res, tk) := consumeStream events "" [] st.tokens
      let st := { st with tokens := tk }
      match res with
      | .error e => ⟨.error e, st, modelName, 1⟩
      | .ok (buf, pending) =>
        if pending.length = 0 then
          ⟨.ok (), { st with history := st.history ++ [⟨"model", [{ text := buf }]⟩] },
           modelName, 1⟩
        else
          match execToolCalls env st pending with
          | (.error e, st') => ⟨.error e, st', modelName, 1⟩
          | (.ok (), st') =>
            let out := loopAux env (iterIdx + 1) fuel modelName st'
            ⟨out.result, out.state, out.modelName, out.backendCalls + 1⟩

/-- What a call to `processWithToolLoop` leaves behind: its error result and
the final values of the caller-visible mutable state (`*history`, the
allow-list, the session token counters), plus the two ghost observables. -/
structure SubmitResult where
  result : Except String Unit
  history : List Content
  allowList : List String
  tokens : Tokens
  ghostBackendCalls : Nat
  ghostUsedModel : String

/-- Embedding of `processWithToolLoop` (src/cmd/chat.go): append the user
turn, snapshot the history length, run the bounded iteration, and on any
failure truncate the history back to the snapshot minus one (the deferred
rollback), leaving allow-list and token-counter changes in place. -/
def processWithToolLoop (env : Env) (modelName text : String)
    (history0 : List Content) (allow0 : List String) (tk0 : Tokens) :
    SubmitResult :=
  let history1 := history0 ++ [⟨"user", [{ text := text }]⟩]
  let historyLenBefore := history1.length
  let st0 : LoopState := ⟨history1, allow0, tk0, 0, 0⟩
  let out := loopAux env 0 maxIterations modelName st0
  match out.result with
  | .ok () =>
    ⟨.ok (), out.state.history, out.state.allowList, out.state.tokens,
     out.backendCalls, out.modelName⟩
  | .error e =>
    ⟨.error e, out.state.history.take (historyLenBefore - 1),
     out.state.allowList, out.state.tokens, out.backendCalls, out.modelName⟩

/-! ## The caller of `processWithToolLoop` (REPL `OnInput` + `autoSave`,
src/cmd/chat.go) -/

/-- A session-file message part in one of the spec's three variants
(§3, §6): text, function call (with optional signature bytes), or function
response. In Go, `Session.Messages` is raw decoded JSON
(`[]map[string]interface{}`); this type is the subset of values claim C8's
proviso "only specified part variants" restricts to. -/
inductive SPart where
  | text (s : String)
  | functionCall (fc : FunctionCall) (sig : List Nat)
  | functionResp (fr : FunctionResp)

/-- A session-file message: role plus parts. -/
structure SessionContent where
  role : String
  parts : List SPart

/-- Session token counters as persisted (Go ints). -/
structure TokenUsage where
  input : Int
  output : Int

/-- A persisted session (internal/session `Session`); `messages` is kept in
the spec's part-variant shape, see `SPart` below. -/
structure Session where
  id : String
  name : String
  model : String
  createdAt : Int
  updatedAt : Int
  messages : List SessionContent
  tokens : TokenUsage

/-- Caller-side state of the chat command around `processWithToolLoop`:
`effectiveModel` is the closure variable passed (by value) into each
submit. -/
structure ChatState where
  effectiveModel : String
  history : List Content
  allowList : List String
  tokens : Tokens

/-- Embedding of `autoSave` (src/cmd/chat.go): serialize the history into
text-only message maps, copy the token counters, and stamp the session's
`model` field with the caller's `effectiveModel`. -/
def autoSave (cs : ChatState) (sess : Session) : Session :=
  { sess with
    messages := cs.history.map (fun h =>
      ⟨h.role, h.parts.map (fun p => .text p.text)⟩),
    tokens := ⟨(cs.tokens.input : Int), (cs.tokens.output : Int)⟩,
    model := cs.effectiveModel }

/-- Embedding of one REPL turn (`OnInput` then `autoSave`): submit the line
with the current `effectiveModel`, absorb the mutated history, allow-list
and token counters, and auto-save the session. -/
def chatTurn (env : Env) (cs : ChatState) (sess : Session) (line : String) :
    ChatState × Session :=
  let r := processWithToolLoop env cs.effectiveModel line cs.history cs.allowList cs.tokens
  let cs' := { cs with history := r.history, allowList := r.allowList, tokens := r.tokens }
  (cs', autoSave cs' sess)

/-! ## The TUI streaming loop (`App.startStreamingWithUpdates`,
src/unnamed/part_002) -/

/-- The message the TUI's streaming command returns to the update loop. -/
inductive TuiMsg where
  | streamError (err : String)
  | toolCall (fc : FunctionCall) (part : Option Part)
  | streamDone (usage : Option Usage)

/-- Embedding of the event loop of `App.startStreamingWithUpdates`: an error
event aborts; the first tool-call event first flushes the accumulated text
into history as a model turn (when non-empty) and returns a tool-call
message; a done event (or stream end) flushes the text likewise and
returns done. -/
def tuiConsume : List StreamEvent → List Content → String → TuiMsg × List Content
  | [], hist, fullText =>
    (.streamDone none,
     if fullText.length > 0 then hist ++ [⟨"model", [{ text := fullText }]⟩] else hist)
  | e :: rest, hist, fullText =>
    if e.type = "error" then (.streamError e.error, hist)
    else if e.type = "tool_call" then
      match e.toolCall with
      | some fc =>
        let hist :=
          if fullText.length > 0 then hist ++ [⟨"model", [{ text := fullText }]⟩]
          else hist
        (.toolCall fc e.toolCallPart, hist)
      | none => tuiConsume rest hist fullText
    else if e.type = "done" then
      (.streamDone e.usage,
       if fullText.length > 0 then hist ++ [⟨"model", [{ text := fullText }]⟩] else hist)
    else
      tuiConsume rest hist (if e.text ≠ "" then fullText ++ e.text else fullText)

/-- The text accumulated by `tuiConsume` at the moment it returns a
tool-call message (companion observer used to state its flushing
behavior). -/
def tuiBufAt : List StreamEvent → String → String
  | [], fullText => fullText
  | e :: rest, fullText =>
    if e.type = "error" then fullText
    else if e.type = "tool_call" then
      match e.toolCall with
      | some _ => fullText
      | none => tuiBufAt rest fullText
    else if e.type = "done" then fullText
    else tuiBufAt rest (if e.text ≠ "" then fullText ++ e.text else fullText)

/-! ## Session store (internal/session, src/unnamed/part_000)

The store is embedded as an association list from file name to the decoded
JSON document it holds; `managerSave` and `managerLoad` mirror
`Manager.Save` and `Manager.Load` over it. Timestamps are ticks (`Int`). -/

/-- Signature bytes encoded as a JSON array of numbers. -/
def bytesToJson (bs : List Nat) : List JVal :=
  bs.map (fun b => JVal.num (b : Int))

/-- Decode a JSON array of numbers back to bytes. -/
def jsonToBytes : List JVal → Option (List Nat)
  | [] => some []
  | JVal.num k :: rest => (jsonToBytes rest).map (fun t => k.toNat :: t)
  | _ => none

/-- Serialize one session-file part (spec §6 session file format). -/
def sPartToJson : SPart → JVal
  | .text s => .obj [("text", .str s)]
  | .functionCall fc sig =>
    .obj [("function_call", .obj
      [("id", .str fc.id), ("name", .str fc.name), ("args", .obj fc.args),
       ("thought_signature", .arr (bytesToJson sig))])]
  | .functionResp fr =>
    .obj [("function_response", .obj
      [("id", .str fr.id), ("name", .str fr.name), ("response", .obj fr.response)])]

/-- Parse one session-file part; unrecognized shapes are rejected. -/
def sPartFromJson : JVal → Option SPart
  | .obj [("text", .str s)] => some (.text s)
  | .obj [("function_call", .obj
      [("id", .str i), ("name", .str n), ("args", .obj a),
       ("thought_signature", .arr sig)])] =>
    (jsonToBytes sig).map (fun bs => .functionCall ⟨i, n, a⟩ bs)
  | .obj [("function_response", .obj
      [("id", .str i), ("name", .str n), ("response", .obj r)])] =>
    some (.functionResp ⟨i, n, r⟩)
  | _ => none

/-- Serialize one session-file message. -/
def sContentToJson (c : SessionContent) : JVal :=
  .obj [("role", .str c.role), ("parts", .arr (c.parts.map sPartToJson))]

/-- Parse a list of parts. -/
def sPartsFromJson : List JVal → Option (List SPart)
  | [] => some []
  | j :: rest => do
    let p ← sPartFromJson j
    let ps ← sPartsFromJson rest
    pure (p :: ps)

/-- Parse one session-file message. -/
def sContentFromJson : JVal → Option SessionContent
  | .obj [("role", .str r), ("parts", .arr ps)] =>
    (sPartsFromJson ps).map (fun parts => ⟨r, parts⟩)
  | _ => none

/-- Parse a list of messages. -/
def sContentsFromJson : List JVal → Option (List SessionContent)
  | [] => some []
  | j :: rest => do
    let c ← sContentFromJson j
    let cs ← sContentsFromJson rest
    pure (c :: cs)

/-- Serialize a session in the Go struct's field order; `name` carries the
`omitempty` tag and is omitted when empty. -/
def sessionToJson (s : Session) : JVal :=
  .obj ([("id", .str s.id)] ++
    (if s.name = "" then [] else [("name", .str s.name)]) ++
    [("model", .str s.model),
     ("created_at", .num s.createdAt),
     ("updated_at", .num s.updatedAt),
     ("messages", .arr (s.messages.map sContentToJson)),
     ("tokens", .obj [("input", .num s.tokens.input), ("output", .num s.tokens.output)])])

/-- Parse a serialized session, in either of the two shapes the serializer
produces (an absent `name` field reads back as ""). -/
def sessionFromJson : JVal → Option Session
  | .obj [("id", .str id), ("model", .str mdl), ("created_at", .num ca),
          ("updated_at", .num ua), ("messages", .arr ms),
          ("tokens", .obj [("input", .num ti), ("output", .num tOut)])] =>
    (sContentsFromJson ms).map (fun msgs => ⟨id, "", mdl, ca, ua, msgs, ⟨ti, tOut⟩⟩)
  | .obj [("id", .str id), ("name", .str nm), ("model", .str mdl),
          ("created_at", .num ca), ("updated_at", .num ua), ("messages", .arr ms),
          ("tokens", .obj [("input", .num ti), ("output", .num tOut)])] =>
    (sContentsFromJson ms).map (fun msgs => ⟨id, nm, mdl, ca, ua, msgs, ⟨ti, tOut⟩⟩)
  | _ => none

/-- The sessions directory: file name to stored JSON document. -/
def Store := List (String × JVal)

/-- Write a file (overwriting any previous file of that name). -/
def storeSet (st : Store) (k : String) (v : JVal) : Store :=
  (k, v) :: st.filter (fun kv => kv.1 ≠ k)

/-- Read a file. -/
def storeGet (st : Store) (k : String) : Option JVal :=
  (st.find? (fun kv => kv.1 == k)).map (·.2)

/-- Does file name `k` match the glob pattern `idOrName ++ "*.json"`? -/
def matchesGlob (idOrName k : String) : Bool :=
  k.length ≥ idOrName.length + 5 &&
  isPrefixB idOrName.toList k.toList &&
  isPrefixB (".json".toList.reverse) k.toList.reverse

/-- Embedding of `Manager.Save` (src/unnamed/part_000): stamp
`updated_at = now`, write `<id>.json`, and when the session has a name also
write the `<name>.json` alias with the same document. Returns the store and
the mutated session (Go updates it through a pointer). -/
def managerSave (st : Store) (s : Session) (now : Int) : Store × Session :=
  let s' := { s with updatedAt := now }
  let data := sessionToJson s'
  let st := storeSet st (s'.id ++ ".json") data
  let st := if s'.name ≠ "" then storeSet st (s'.name ++ ".json") data else st
  (st, s')

/-- Embedding of `Manager.Load` (src/unnamed/part_000): exact file-name match
first, otherwise glob `<idOrName>*.json` (no match is not-found, several
matches are ambiguous), then parse the document. -/
def managerLoad (st : Store) (idOrName : String) : Except String Session :=
  let fromData (data : JVal) : Except String Session :=
    match sessionFromJson data with
    | some s => .ok s
    | none => .error "failed to parse session file"
  match storeGet st (idOrName ++ ".json") with
  | some data => fromData data
  | none =>
    match st.filter (fun kv => matchesGlob idOrName kv.1) with
    | [] => .error ("session not found: " ++ idOrName)
    | [kv] => fromData kv.2
    | _ => .error ("multiple sessions match " ++ idOrName ++ ", be more specific")

/-! ## Shell tool (`ShellTool.Execute`, src/unnamed/part_002)

Output strings are byte lists because the Go code slices by byte length.
The process launch itself is I/O; its captured outcome is a parameter. -/

/-- Values stored in a tool result map: a Go string held as bytes, a Go
string held as character text, an integer, or a boolean. -/
inductive ToolVal where
  | bytes (v : List Nat)
  | s (v : String)
  | i (v : Int)
  | b (v : Bool)

/-- Result-map lookup. -/
def rLookup (m : List (String × ToolVal)) (k : String) : Option ToolVal :=
  (m.find? (fun kv => kv.1 == k)).map (·.2)

/-- ASCII bytes of a literal. -/
def asciiBytes (s : String) : List Nat :=
  s.toList.map Char.toNat

/-- ASCII whitespace, the relevant fragment of Go `unicode.IsSpace` for
`strings.TrimSpace`. -/
def isSpaceByte (b : Nat) : Bool :=
  b = 32 || b = 9 || b = 10 || b = 11 || b = 12 || b = 13

/-- Go `strings.TrimSpace` on bytes (ASCII range). -/
def trimSpaceBytes (s : List Nat) : List Nat :=
  ((s.dropWhile isSpaceByte).reverse.dropWhile isSpaceByte).reverse

/-- The `maxOutput` constant (src/unnamed/part_002). -/
def maxOutput : Nat := 50000

/-- The truncation marker appended to over-long output. -/
def outputTruncMarker : List Nat :=
  asciiBytes "\n[Output truncated...]"

/-- What `cmd.Run` left in the captured buffers and as its error. -/
inductive RunErr where
  | noErr
  | exitErr (code : Int)
  | otherErr (msg : String)

/-- Captured outcome of the launched process. -/
structure ShellRun where
  stdout : List Nat
  stderr : List Nat
  timedOut : Bool
  runErr : RunErr

/-- Embedding of `ShellTool.Execute` (src/unnamed/part_002) after argument
decoding: reject a blank command; clamp the timeout to (0, 300] with
default 60; truncate each captured output at `maxOutput` bytes, appending
the marker; then report timeout, exit code, or run error. -/
def ShellToolExecute (command : List Nat) (timeoutArg : Option Int)
    (durationMs : Int) (run : ShellRun) : List (String × ToolVal) :=
  if trimSpaceBytes command = [] then
    [("error", .s "command is required and cannot be empty")]
  else
    let timeout :=
      match timeoutArg with
      | some t => if t ≤ 0 then 60 else if t > 300 then 300 else t
      | none => 60
    let base := [("command", ToolVal.bytes command), ("duration_ms", ToolVal.i durationMs)]
    let stdoutStr :=
      if run.stdout.length > maxOutput then run.stdout.take maxOutput ++ outputTruncMarker
      else run.stdout
    let stderrStr :=
      if run.stderr.length > maxOutput then run.stderr.take maxOutput ++ outputTruncMarker
      else run.stderr
    let r := base ++ [("stdout", ToolVal.bytes stdoutStr), ("stderr", ToolVal.bytes stderrStr)]
    if run.timedOut then
      r ++ [("error", .s ("command timed out after " ++ toString timeout ++ " seconds")),
            ("exit_code", .i (-1))]
    else
      match run.runErr with
      | .exitErr code => r ++ [("exit_code", .i code)]
      | .otherErr msg => r ++ [("error", .s msg), ("exit_code", .i (-1))]
      | .noErr => r ++ [("exit_code", .i 0)]

/-! ## edit_file tool (`EditFileTool.Execute`, src/unnamed/part_001)

File contents are byte lists; reading and writing the file system is
abstracted into the current content in, the new content out. -/

/-- Embedding of `EditFileTool.Execute` after argument decoding and file
read: report not-found and leave the content unchanged when `old_text`
does not occur, otherwise replace its first occurrence and report
success. Returns the result map and the content written back. -/
def EditFileExecute (fullPath : String) (content oldText newText : List Nat) :
    List (String × ToolVal) × List Nat :=
  if goContains content oldText then
    ([("success", .b true), ("path", .s fullPath),
      ("message", .s "Successfully edited file")],
     goReplaceOnce content oldText newText)
  else
    ([("error", .s "old_text not found in file")], content)

/-! ## Predicates and concrete fixtures used by the claim theorems -/

/-- Delivery predicate: `p` is a full tool-call Part delivered by some stream of this
environment (so in particular its `thought_signature` bytes are the bytes
the backend emitted). -/
def deliveredBy (env : Env) (p : Part) : Prop :=
  ∃ i mdl evs e, env.clients i mdl = .stream evs ∧ e ∈ evs ∧
    e.type = "tool_call" ∧ e.toolCall.isSome = true ∧ e.toolCallPart = some p

/-- Every tool-call event of every stream of this environment carries the
full wire Part, as the streaming client guarantees (spec §4.3). -/
def EnvFullParts (env : Env) : Prop :=
  ∀ i mdl evs, env.clients i mdl = .stream evs →
    ∀ e ∈ evs, e.type = "tool_call" → e.toolCall.isSome = true →
      e.toolCallPart ≠ none

/-- Environment whose backend always fails non-retryably. -/
def envFail : Env :=
  ⟨fun _ _ => .fail "boom", [], fun _ => .ok .proceedOnce⟩

/-- A trivial tool that always succeeds without confirmation. -/
def advTool : ToolSpec :=
  ⟨"t", false, fun _ => .ok [("ok", .str "1")]⟩

/-- A tool-call event for `advTool`. -/
def advToolEvent : StreamEvent :=
  { type := "tool_call", toolCall := some ⟨"c1", "t", []⟩,
    toolCallPart := some { functionCall := some ⟨"c1", "t", []⟩ } }

/-- Adversarial environment: every stream emits one tool call and never a
terminal text answer. -/
def envAdv : Env :=
  ⟨fun _ _ => .stream [advToolEvent], [advTool], fun _ => .ok .proceedOnce⟩

/-- The function call of the C2 scenario. -/
def fcC2 : FunctionCall := ⟨"c1", "read_file", [("path", .str "a.txt")]⟩

/-- Its full wire Part, carrying a thought signature. -/
def pC2 : Part := { functionCall := some fcC2, thoughtSignature := [7] }

/-- C2 scenario: iteration 0 streams text then a tool call; iteration 1
streams the final text. -/
def envC2 : Env :=
  ⟨fun i _ =>
    if i = 0 then
      .stream [{ type := "text", text := "Let me check" },
               { type := "tool_call", toolCall := some fcC2, toolCallPart := some pC2 },
               { type := "done" }]
    else .stream [{ type := "text", text := "done" }, { type := "done" }],
   [⟨"read_file", false, fun _ => .ok [("content", .str "hi")]⟩],
   fun _ => .ok .proceedOnce⟩

/-- A two-event stream — text then tool call — exercising the TUI loop. -/
def evsW : List StreamEvent :=
  [{ type := "text", text := "hi" },
   { type := "tool_call", toolCall := some fcC2, toolCallPart := some pC2 }]

/-- C3 scenario: the requested pro model fails with a 503 and the flash
fallback streams the answer. -/
def envC3 : Env :=
  ⟨fun _ m =>
    if m = "gemini-3-pro-preview" then .fail "503 Service Unavailable"
    else if m = "gemini-3-flash-preview" then
      .stream [{ type := "text", text := "ok" }, { type := "done" }]
    else .fail "boom",
   [], fun _ => .ok .proceedOnce⟩

/-- A fresh session fixture. -/
def sess0 : Session :=
  ⟨"20250101-000000", "", "gemini-3-pro-preview", 0, 0, [], ⟨0, 0⟩⟩

/-- The signed tool-call Part of the C5 scenario. -/
def pC5 : Part :=
  { functionCall := some ⟨"c9", "t", []⟩, thoughtSignature := [1, 2, 3] }

/-- C5 scenario: iteration 0 emits one signed tool call, iteration 1 the
final text. -/
def envC5 : Env :=
  ⟨fun i _ =>
    if i = 0 then
      .stream [{ type := "tool_call", toolCall := some ⟨"c9", "t", []⟩,
                 toolCallPart := some pC5 }]
    else .stream [{ type := "text", text := "ok" }, { type := "done" }],
   [advTool], fun _ => .ok .proceedOnce⟩

/-- C6 scenario: the stream closes after a bare done event. -/
def doneEvC6 : StreamEvent := { type := "done", usage := some ⟨3, 2⟩ }

/-- C6 environment. -/
def envC6 : Env :=
  ⟨fun _ _ => .stream [doneEvC6], [], fun _ => .ok .proceedOnce⟩

/-- C9 fixture: a captured run whose stdout is one byte over the cap. -/
def runC9 : ShellRun :=
  ⟨List.replicate 50001 65, [], false, .noErr⟩

/-! ## Correctness of the substring scan (shared by C7 and C10) -/

theorem isPrefixB_iff [DecidableEq α] (n h : List α) :
    isPrefixB n h = true ↔ h.take n.length = n := by
  induction n generalizing h with
  | nil => simp [isPrefixB]
  | cons a as ih =>
    cases h with
    | nil => simp [isPrefixB]
    | cons b bs =>
      by_cases hab : a = b
      · subst hab
        simp [isPrefixB, ih]
      · simp [isPrefixB, hab]
        intro hba
        exact absurd hba.symm hab

theorem occursAtL_zero [DecidableEq α] (hay n : List α) :
    occursAtL hay n 0 ↔ isPrefixB n hay = true := by
  rw [isPrefixB_iff]
  constructor
  · rintro ⟨-, h⟩
    simpa using h
  · intro h
    refine ⟨?_, by simpa using h⟩
    have := congrArg List.length h
    simp [List.length_take] at this
    omega

theorem occursAtL_cons_succ [DecidableEq α] (a : α) (t n : List α) (k : Nat) :
    occursAtL (a :: t) n (k + 1) ↔ occursAtL t n k := by
  unfold occursAtL
  simp only [List.drop_succ_cons, List.length_cons]
  constructor <;> (rintro ⟨h1, h2⟩; exact ⟨by omega, h2⟩)

theorem goIndexAux_some [DecidableEq α] {hay needle : List α} {i j : Nat}
    (h : goIndexAux hay needle i = some j) :
    i ≤ j ∧ occursAtL hay needle (j - i) ∧ ∀ m < j - i, ¬ occursAtL hay needle m := by
  induction hay generalizing i with
  | nil =>
    unfold goIndexAux at h
    by_cases hp : isPrefixB needle ([] : List α) = true
    · simp [hp] at h
      subst h
      refine ⟨Nat.le_refl _, ?_, by omega⟩
      simpa [occursAtL_zero] using hp
    · simp [hp] at h
  | cons a t ih =>
    unfold goIndexAux at h
    by_cases hp : isPrefixB needle (a :: t) = true
    · simp [hp] at h
      subst h
      refine ⟨Nat.le_refl _, ?_, by omega⟩
      simpa [occursAtL_zero] using hp
    · simp [hp] at h
      obtain ⟨hle, hocc, hmin⟩ := ih h
      refine ⟨by omega, ?_, ?_⟩
      · have : j - i = (j - (i + 1)) + 1 := by omega
        rw [this, occursAtL_cons_succ]
        exact hocc
      · intro m hm
        cases m with
        | zero =>
          rw [occursAtL_zero]
          simpa using hp
        | succ m' =>
          rw [occursAtL_cons_succ]
          exact hmin m' (by omega)

theorem goIndexAux_none [DecidableEq α] {hay needle : List α} {i : Nat}
    (h : goIndexAux hay needle i = none) :
    ∀ k, ¬ occursAtL hay needle k := by
  induction hay generalizing i with
  | nil =>
    unfold goIndexAux at h
    by_cases hp : isPrefixB needle ([] : List α) = true
    · simp [hp] at h
    · intro k hk
      obtain ⟨hlen, htake⟩ := hk
      simp at hlen
      obtain ⟨-, hne⟩ := hlen
      subst hne
      simp [isPrefixB] at hp
  | cons a t ih =>
    unfold goIndexAux at h
    by_cases hp : isPrefixB needle (a :: t) = true
    · simp [hp] at h
    · simp [hp] at h
      intro k
      cases k with
      | zero =>
        rw [occursAtL_zero]
        simpa using hp
      | succ k' =>
        rw [occursAtL_cons_succ]
        exact ih h k'

theorem goIndex_some [DecidableEq α] {hay needle : List α} {i : Nat}
    (h : goIndex hay needle = some i) :
    occursAtL hay needle i ∧ ∀ m < i, ¬ occursAtL hay needle m := by
  obtain ⟨-, hocc, hmin⟩ := goIndexAux_some (i := 0) h
  simpa using ⟨hocc, hmin⟩

theorem goIndex_none [DecidableEq α] {hay needle : List α}
    (h : goIndex hay needle = none) :
    ∀ k, ¬ occursAtL hay needle k :=
  goIndexAux_none (i := 0) h

theorem occursAtL_iff_append [DecidableEq α] (hay needle : List α) :
    (∃ i, occursAtL hay needle i) ↔ ∃ l r, hay = l ++ needle ++ r := by
  constructor
  · rintro ⟨i, hlen, htake⟩
    refine ⟨hay.take i, hay.drop (i + needle.length), ?_⟩
    conv_lhs => rw [← List.take_append_drop i hay]
    rw [List.append_assoc]
    congr 1
    conv_lhs => rw [← List.take_append_drop needle.length (hay.drop i)]
    rw [htake, List.drop_drop]
  · rintro ⟨l, r, rfl⟩
    refine ⟨l.length, ?_, ?_⟩
    · simp
    · rw [List.append_assoc, List.drop_left, List.take_left]

theorem goContains_iff [DecidableEq α] (hay needle : List α) :
    goContains hay needle = true ↔ ∃ l r, hay = l ++ needle ++ r := by
  rw [← occursAtL_iff_append]
  unfold goContains
  cases hidx : goIndex hay needle with
  | none =>
    refine iff_of_false (by simp) ?_
    rintro ⟨i, hi⟩
    exact goIndex_none hidx i hi
  | some i =>
    exact iff_of_true (by simp) ⟨i, (goIndex_some hidx).1⟩

theorem strContains_iff (s sub : String) :
    strContains s sub = true ↔ ∃ l r, s.toList = l ++ sub.toList ++ r :=
  goContains_iff s.toList sub.toList

/-! ## Claim C7: the retryability predicate -/

/-- C7 (counterexample): the claim says the phrase "model not found" is
matched case-insensitively, so `isRetryableError` should accept
"MODEL NOT FOUND"; the code checks only the two literal casings and
rejects it, while the claim's own predicate accepts it. -/
theorem c7_counterexample :
    isRetryableError "MODEL NOT FOUND" = false ∧
    specIsRetryable "MODEL NOT FOUND" = true := by
  constructor <;> decide

/-- C7 (amended): `isRetryableError` returns true exactly when the message
contains one of the six status markers or one of exactly the two casings
"model not found" / "Model not found" as a substring; arbitrary other
casings of the phrase are not matched. -/
theorem c7_retryable_amended (s : String) :
    isRetryableError s = true ↔
      ∃ n ∈ retryNeedles, ∃ l r, s.toList = l ++ n.toList ++ r := by
  constructor
  · intro h
    unfold isRetryableError at h
    simp only [Bool.or_eq_true, strContains_iff] at h
    rcases h with ((((((h | h) | h) | h) | h) | h) | h) | h
    · exact ⟨"429", by simp [retryNeedles], h⟩
    · exact ⟨"404", by simp [retryNeedles], h⟩
    · exact ⟨"503", by simp [retryNeedles], h⟩
    · exact ⟨"RESOURCE_EXHAUSTED", by simp [retryNeedles], h⟩
    · exact ⟨"UNAVAILABLE", by simp [retryNeedles], h⟩
    · exact ⟨"NOT_FOUND", by simp [retryNeedles], h⟩
    · exact ⟨"model not found", by simp [retryNeedles], h⟩
    · exact ⟨"Model not found", by simp [retryNeedles], h⟩
  · rintro ⟨n, hn, l, r, hs⟩
    fin_cases hn <;>
      · have hc := (strContains_iff s _).2 ⟨l, r, hs⟩
        simp [isRetryableError, hc]

/-! ## Claim C10: edit_file replaces exactly the first occurrence -/

/-- C10: on a readable file, when `old_text` occurs in the content,
`EditFileTool.Execute` reports success and rewrites the content by
splicing `new_text` over the first (leftmost) occurrence, leaving the
prefix before it and the suffix after it — hence all later occurrences —
byte-for-byte unchanged; when `old_text` does not occur, it returns the
map with the single key "error" = "old_text not found in file" and leaves
the content unmodified. -/
theorem c10_edit_file_first_occurrence (fullPath : String)
    (content oldText newText : List Nat) :
    ((∃ i, occursAtL content oldText i) →
      ∃ i, occursAtL content oldText i ∧ (∀ j < i, ¬ occursAtL content oldText j) ∧
        EditFileExecute fullPath content oldText newText =
          ([("success", .b true), ("path", .s fullPath),
            ("message", .s "Successfully edited file")],
           content.take i ++ newText ++ content.drop (i + oldText.length))) ∧
    ((¬ ∃ i, occursAtL content oldText i) →
      EditFileExecute fullPath content oldText newText =
        ([("error", .s "old_text not found in file")], content)) := by
  cases hidx : goIndex content oldText with
  | some i =>
    have hocc := goIndex_some hidx
    have hct : goContains content oldText = true := by
      unfold goContains
      rw [hidx]
      rfl
    constructor
    · intro _
      refine ⟨i, hocc.1, hocc.2, ?_⟩
      simp [EditFileExecute, hct, goReplaceOnce, hidx]
    · intro hn
      exact absurd ⟨i, hocc.1⟩ hn
  | none =>
    have hcf : goContains content oldText = false := by
      unfold goContains
      rw [hidx]
      rfl
    constructor
    · rintro ⟨i, hi⟩
      exact absurd hi (goIndex_none hidx i)
    · intro _
      simp [EditFileExecute, hcf]

/-- Witness for C10 at concrete inputs, one per branch: in [1,2,3,2,3] the
pattern [2,3] first occurs at index 1 and is replaced there; [7,7] does not
occur in [1,2,3] and the file is left unchanged. -/
theorem c10_edit_file_first_occurrence_witness :
    (∃ i, occursAtL [1, 2, 3, 2, 3] [2, 3] i ∧
      (∀ j < i, ¬ occursAtL [1, 2, 3, 2, 3] [2, 3] j) ∧
      EditFileExecute "f" [1, 2, 3, 2, 3] [2, 3] [9] =
        ([("success", .b true), ("path", .s "f"),
          ("message", .s "Successfully edited file")],
         List.take i [1, 2, 3, 2, 3] ++ [9] ++ List.drop (i + 2) [1, 2, 3, 2, 3])) ∧
    EditFileExecute "f" [1, 2, 3] [7, 7] [9] =
      ([("error", .s "old_text not found in file")], [1, 2, 3]) := by
  constructor
  · exact (c10_edit_file_first_occurrence "f" [1, 2, 3, 2, 3] [2, 3] [9]).1
      ⟨1, by constructor <;> decide⟩
  · refine (c10_edit_file_first_occurrence "f" [1, 2, 3] [7, 7] [9]).2 ?_
    rintro ⟨i, hlen, htake⟩
    simp at hlen
    interval_cases i <;> exact absurd htake (by decide)

/-! ## Structural lemmas about the agent loop -/

theorem execOneToolCall_history (env : Env) (st : LoopState) (p : Part) :
    (execOneToolCall env st p).2.history = st.history ∨
    ∃ fr, (execOneToolCall env st p).2.history = st.history ++ [fcTurn p, frTurn fr] := by
  dsimp only [execOneToolCall]
  repeat' split
  all_goals first
    | exact Or.inl rfl
    | exact Or.inr ⟨_, rfl⟩

theorem execToolCalls_history (env : Env) :
    ∀ (ps : List Part) (st : LoopState),
      ∃ t, (execToolCalls env st ps).2.history = st.history ++ t ∧
        ∀ c ∈ t, (∃ p ∈ ps, c = fcTurn p) ∨ ∃ fr, c = frTurn fr := by
  intro ps
  induction ps with
  | nil =>
    intro st
    exact ⟨[], by simp [execToolCalls], by simp⟩
  | cons p ps ih =>
    intro st
    have hone := execOneToolCall_history env st p
    cases hone' : execOneToolCall env st p with
    | mk res st' =>
      rw [hone'] at hone
      dsimp only at hone
      cases res with
      | ok u =>
        cases u
        have hstep : execToolCalls env st (p :: ps) = execToolCalls env st' ps := by
          simp [execToolCalls, hone']
        obtain ⟨t', ht', hmem'⟩ := ih st'
        rcases hone with hsame | ⟨fr, hpair⟩
        · refine ⟨t', ?_, ?_⟩
          · rw [hstep, ht', hsame]
          · intro c hc
            rcases hmem' c hc with ⟨q, hq, rfl⟩ | hfr
            · exact Or.inl ⟨q, List.mem_cons_of_mem _ hq, rfl⟩
            · exact Or.inr hfr
        · refine ⟨[fcTurn p, frTurn fr] ++ t', ?_, ?_⟩
          · rw [hstep, ht', hpair]
            simp
          · intro c hc
            simp only [List.cons_append, List.nil_append, List.mem_cons] at hc
            rcases hc with rfl | rfl | hc
            · exact Or.inl ⟨p, List.mem_cons_self _ _, rfl⟩
            · exact Or.inr ⟨fr, rfl⟩
            · rcases hmem' c hc with ⟨q, hq, rfl⟩ | hfr
              · exact Or.inl ⟨q, List.mem_cons_of_mem _ hq, rfl⟩
              · exact Or.inr hfr
      | error e =>
        have hstep : execToolCalls env st (p :: ps) = (.error e, st') := by
          simp [execToolCalls, hone']
        rcases hone with hsame | ⟨fr, hpair⟩
        · exact ⟨[], by rw [hstep]; simpa using hsame, by simp⟩
        · refine ⟨[fcTurn p, frTurn fr], by rw [hstep]; exact hpair, ?_⟩
          intro c hc
          simp only [List.mem_cons, List.not_mem_nil, or_false] at hc
          rcases hc with rfl | rfl
          · exact Or.inl ⟨p, List.mem_cons_self _ _, rfl⟩
          · exact Or.inr ⟨fr, rfl⟩

theorem consumeStream_pending :
    ∀ (evs : List StreamEvent) (buf : String) (pending : List Part) (tk : Tokens)
      (buf' : String) (pending' : List Part) (tk' : Tokens),
      consumeStream evs buf pending tk = (.ok (buf', pending'), tk') →
      ∀ p ∈ pending', p ∈ pending ∨
        ∃ e ∈ evs, e.type = "tool_call" ∧ e.toolCall.isSome = true ∧
          (e.toolCallPart = some p ∨
           (e.toolCallPart = none ∧ p = { functionCall := e.toolCall })) := by
  intro evs
  induction evs with
  | nil =>
    intro buf pending tk buf' pending' tk' h p hp
    simp [consumeStream] at h
    obtain ⟨⟨-, rfl⟩, -⟩ := h
    exact Or.inl hp
  | cons e rest ih =>
    intro buf pending tk buf' pending' tk' h p hp
    rw [consumeStream] at h
    by_cases herr : e.type = "error"
    · rw [if_pos herr] at h
      exact absurd h (by simp)
    · rw [if_neg herr] at h
      dsimp only at h
      by_cases htc : e.type = "tool_call" ∧ e.toolCall.isSome = true
      · rw [if_pos htc] at h
        cases hpart : e.toolCallPart with
        | some part =>
          rw [hpart] at h
          dsimp only at h
          rcases ih _ _ _ _ _ _ h p hp with hmem | ⟨e', he', hrest⟩
          · rcases List.mem_append.1 hmem with hmem | hmem
            · exact Or.inl hmem
            · simp only [List.mem_singleton] at hmem
              subst hmem
              exact Or.inr ⟨e, List.mem_cons_self _ _, htc.1, htc.2, Or.inl hpart⟩
          · exact Or.inr ⟨e', List.mem_cons_of_mem _ he', hrest⟩
        | none =>
          rw [hpart] at h
          dsimp only at h
          rcases ih _ _ _ _ _ _ h p hp with hmem | ⟨e', he', hrest⟩
          · rcases List.mem_append.1 hmem with hmem | hmem
            · exact Or.inl hmem
            · simp only [List.mem_singleton] at hmem
              subst hmem
              exact Or.inr ⟨e, List.mem_cons_self _ _, htc.1, htc.2, Or.inr ⟨hpart, rfl⟩⟩
          · exact Or.inr ⟨e', List.mem_cons_of_mem _ he', hrest⟩
      · rw [if_neg htc] at h
        rcases ih _ _ _ _ _ _ h p hp with hmem | ⟨e', he', hrest⟩
        · exact Or.inl hmem
        · exact Or.inr ⟨e', List.mem_cons_of_mem _ he', hrest⟩

theorem generateStreamWithFallbackAux_src (client : String → AttemptResult) :
    ∀ (models : List String) (attempt : Nat) (reqModel : String)
      (evs : List StreamEvent) (used : String),
      generateStreamWithFallbackAux client models attempt reqModel = .ok (evs, used) →
      client used = .stream evs := by
  intro models
  induction models with
  | nil =>
    intro attempt reqModel evs used h
    simp [generateStreamWithFallbackAux] at h
  | cons m rest ih =>
    intro attempt reqModel evs used h
    rw [generateStreamWithFallbackAux] at h
    split at h
    · split at h
      · exact ih _ _ _ _ h
      · exact absurd h (by simp)
    · rename_i hcl
      simp at h
      obtain ⟨rfl, rfl⟩ := h
      exact hcl

theorem generateStreamWithFallback_src (client : String → AttemptResult)
    (modelName : String) (evs : List StreamEvent) (used : String)
    (h : generateStreamWithFallback client modelName = .ok (evs, used)) :
    client used = .stream evs :=
  generateStreamWithFallbackAux_src client _ _ _ _ _ h

theorem loopAux_history (env : Env) :
    ∀ (fuel iterIdx : Nat) (m : String) (st : LoopState),
      ∃ t, (loopAux env iterIdx fuel m st).state.history = st.history ++ t := by
  intro fuel
  induction fuel with
  | zero =>
    intro iterIdx m st
    exact ⟨[], by simp [loopAux]⟩
  | succ fuel ih =>
    intro iterIdx m st
    rw [loopAux]
    cases hgen : generateStreamWithFallback (env.clients iterIdx) m with
    | error e => exact ⟨[], by simp⟩
    | ok pair =>
      obtain ⟨events, usedModel⟩ := pair
      dsimp only
      cases hcons : consumeStream events "" [] st.tokens with
      | mk res tk =>
        cases res with
        | error e => exact ⟨[], by simp⟩
        | ok bp =>
          obtain ⟨buf, pending⟩ := bp
          dsimp only
          split
          · exact ⟨[⟨"model", [{ text := buf }]⟩], by simp⟩
          · cases hexec : execToolCalls env { st with tokens := tk } pending with
            | mk res' st' =>
              obtain ⟨t1, ht1, -⟩ := execToolCalls_history env pending { st with tokens := tk }
              rw [hexec] at ht1
              cases res' with
              | error e => exact ⟨t1, by simpa using ht1⟩
              | ok u =>
                cases u
                obtain ⟨t2, ht2⟩ :=
                  ih (iterIdx + 1) (if usedModel ≠ m then usedModel else m) st'
                refine ⟨t1 ++ t2, ?_⟩
                have ht1' : st'.history = st.history ++ t1 := ht1
                exact ht2.trans (by rw [ht1', List.append_assoc])

theorem loopAux_calls (env : Env) :
    ∀ (fuel iterIdx : Nat) (m : String) (st : LoopState),
      (loopAux env iterIdx fuel m st).backendCalls ≤ fuel := by
  intro fuel
  induction fuel with
  | zero =>
    intro iterIdx m st
    simp [loopAux]
  | succ fuel ih =>
    intro iterIdx m st
    rw [loopAux]
    cases hgen : generateStreamWithFallback (env.clients iterIdx) m with
    | error e => simp
    | ok pair =>
      obtain ⟨events, usedModel⟩ := pair
      dsimp only
      cases hcons : consumeStream events "" [] st.tokens with
      | mk res tk =>
        cases res with
        | error e => simp
        | ok bp =>
          obtain ⟨buf, pending⟩ := bp
          dsimp only
          split
          · simp
          · cases hexec : execToolCalls env { st with tokens := tk } pending with
            | mk res' st' =>
              cases res' with
              | error e => simp
              | ok u =>
                cases u
                exact Nat.succ_le_succ
                  (ih (iterIdx + 1) (if usedModel ≠ m then usedModel else m) st')

theorem loopAux_parts (env : Env) (henv : EnvFullParts env) :
    ∀ (fuel iterIdx : Nat) (m : String) (st : LoopState),
      ∃ t, (loopAux env iterIdx fuel m st).state.history = st.history ++ t ∧
        ∀ c ∈ t, ∀ pt ∈ c.parts, pt.functionCall.isSome = true → deliveredBy env pt := by
  intro fuel
  induction fuel with
  | zero =>
    intro iterIdx m st
    exact ⟨[], by simp [loopAux], by simp⟩
  | succ fuel ih =>
    intro iterIdx m st
    rw [loopAux]
    cases hgen : generateStreamWithFallback (env.clients iterIdx) m with
    | error e => exact ⟨[], by simp, by simp⟩
    | ok pair =>
      obtain ⟨events, usedModel⟩ := pair
      have hsrc := generateStreamWithFallback_src _ _ _ _ hgen
      dsimp only
      cases hcons : consumeStream events "" [] st.tokens with
      | mk res tk =>
        cases res with
        | error e => exact ⟨[], by simp, by simp⟩
        | ok bp =>
          obtain ⟨buf, pending⟩ := bp
          have hpend : ∀ p ∈ pending, deliveredBy env p := by
            intro p hp
            rcases consumeStream_pending events "" [] st.tokens buf pending tk hcons p hp with
              hmem | ⟨e, he, htype, hsome, hpart⟩
            · simp at hmem
            · rcases hpart with hpart | ⟨hnone, -⟩
              · exact ⟨iterIdx, usedModel, events, e, hsrc, he, htype, hsome, hpart⟩
              · exact absurd hnone (henv iterIdx usedModel events hsrc e he htype hsome)
          dsimp only
          split
          · refine ⟨[⟨"model", [{ text := buf }]⟩], by simp, ?_⟩
            intro c hc pt hpt hsome
            simp at hc
            subst hc
            simp at hpt
            subst hpt
            simp at hsome
          · cases hexec : execToolCalls env { st with tokens := tk } pending with
            | mk res' st' =>
              obtain ⟨t1, ht1, hmem1⟩ :=
                execToolCalls_history env pending { st with tokens := tk }
              rw [hexec] at ht1
              have hT1 : ∀ c ∈ t1, ∀ pt ∈ c.parts,
                  pt.functionCall.isSome = true → deliveredBy env pt := by
                intro c hc pt hpt hsome
                rcases hmem1 c hc with ⟨q, hq, rfl⟩ | ⟨fr, rfl⟩
                · simp [fcTurn] at hpt
                  obtain rfl := hpt
                  exact hpend _ hq
                · simp [frTurn] at hpt
                  obtain rfl := hpt
                  simp at hsome
              cases res' with
              | error e =>
                exact ⟨t1, by simpa using ht1, hT1⟩
              | ok u =>
                cases u
                obtain ⟨t2, ht2, hmem2⟩ :=
                  ih (iterIdx + 1) (if usedModel ≠ m then usedModel else m) st'
                refine ⟨t1 ++ t2, ?_, ?_⟩
                · have ht1' : st'.history = st.history ++ t1 := ht1
                  exact ht2.trans (by rw [ht1', List.append_assoc])
                · intro c hc
                  rcases List.mem_append.1 hc with hc | hc
                  · exact hT1 c hc
                  · exact hmem2 c hc

/-! ## Component views of `processWithToolLoop` (both match arms copy the
loop's outcome, state and ghost observables into the result) -/

theorem submit_result_eq (env : Env) (m text : String) (h : List Content)
    (a : List String) (tk : Tokens) :
    (processWithToolLoop env m text h a tk).result =
      (loopAux env 0 maxIterations m
        ⟨h ++ [⟨"user", [{ text := text }]⟩], a, tk, 0, 0⟩).result := by
  dsimp only [processWithToolLoop]
  cases hres : (loopAux env 0 maxIterations m
      ⟨h ++ [⟨"user", [{ text := text }]⟩], a, tk, 0, 0⟩).result with
  | ok u => cases u; rfl
  | error e => rfl

theorem submit_calls_eq (env : Env) (m text : String) (h : List Content)
    (a : List String) (tk : Tokens) :
    (processWithToolLoop env m text h a tk).ghostBackendCalls =
      (loopAux env 0 maxIterations m
        ⟨h ++ [⟨"user", [{ text := text }]⟩], a, tk, 0, 0⟩).backendCalls := by
  dsimp only [processWithToolLoop]
  cases hres : (loopAux env 0 maxIterations m
      ⟨h ++ [⟨"user", [{ text := text }]⟩], a, tk, 0, 0⟩).result with
  | ok u => cases u; rfl
  | error e => rfl

theorem submit_history_ok (env : Env) (m text : String) (h : List Content)
    (a : List String) (tk : Tokens)
    (hok : (loopAux env 0 maxIterations m
        ⟨h ++ [⟨"user", [{ text := text }]⟩], a, tk, 0, 0⟩).result = .ok ()) :
    (processWithToolLoop env m text h a tk).history =
      (loopAux env 0 maxIterations m
        ⟨h ++ [⟨"user", [{ text := text }]⟩], a, tk, 0, 0⟩).state.history := by
  dsimp only [processWithToolLoop]
  rw [hok]

theorem submit_history_err (env : Env) (m text : String) (h : List Content)
    (a : List String) (tk : Tokens) (e : String)
    (herr : (loopAux env 0 maxIterations m
        ⟨h ++ [⟨"user", [{ text := text }]⟩], a, tk, 0, 0⟩).result = .error e) :
    (processWithToolLoop env m text h a tk).history =
      (loopAux env 0 maxIterations m
        ⟨h ++ [⟨"user", [{ text := text }]⟩], a, tk, 0, 0⟩).state.history.take
        ((h ++ [(⟨"user", [{ text := text }]⟩ : Content)]).length - 1) := by
  dsimp only [processWithToolLoop]
  rw [herr]

/-! ## Claim C1: atomic rollback of history on a failed submit -/

/-- C1: whenever `processWithToolLoop` returns an error, the deferred
rollback truncates the conversation history back to exactly its value
before the call — the user turn and every model-text, tool-call and
tool-response turn appended during the failed call are removed, so the
length is exactly the length before the call. -/
theorem c1_atomic_rollback (env : Env) (m text : String) (h : List Content)
    (a : List String) (tk : Tokens) (e : String)
    (herr : (processWithToolLoop env m text h a tk).result = .error e) :
    (processWithToolLoop env m text h a tk).history = h ∧
    (processWithToolLoop env m text h a tk).history.length = h.length := by
  rw [submit_result_eq] at herr
  obtain ⟨t, ht⟩ := loopAux_history env maxIterations 0 m
    ⟨h ++ [⟨"user", [{ text := text }]⟩], a, tk, 0, 0⟩
  have hhist := submit_history_err env m text h a tk e herr
  rw [ht] at hhist
  have hlen : (h ++ [(⟨"user", [{ text := text }]⟩ : Content)]).length - 1 = h.length := by
    simp
  rw [hlen, List.append_assoc] at hhist
  rw [List.take_left] at hhist
  exact ⟨hhist, by rw [hhist]⟩

/-- Witness for C1: a backend that fails non-retryably makes the submit
fail and leaves the one-turn starting history unchanged. -/
theorem c1_atomic_rollback_witness :
    (processWithToolLoop envFail "m" "x" [⟨"user", [{ text := "old" }]⟩] []
      ⟨0, 0⟩).result = .error "boom" ∧
    (processWithToolLoop envFail "m" "x" [⟨"user", [{ text := "old" }]⟩] []
      ⟨0, 0⟩).history = [⟨"user", [{ text := "old" }]⟩] :=
  ⟨rfl, (c1_atomic_rollback envFail "m" "x" [⟨"user", [{ text := "old" }]⟩] []
    ⟨0, 0⟩ "boom" rfl).1⟩

/-! ## Claim C2: buffered text before tool calls -/

/-- C2 (counterexample): a stream that emits the text "Let me check" and
then a tool call. Submit succeeds, but the final history holds only the
user turn, the tool-call/response pair and the final model text — the
buffered "Let me check" was discarded, not appended as a model turn before
the pair, contradicting the claim. -/
theorem c2_counterexample :
    (processWithToolLoop envC2 "m" "read ./a.txt" [] [] ⟨0, 0⟩).result = .ok () ∧
    (processWithToolLoop envC2 "m" "read ./a.txt" [] [] ⟨0, 0⟩).history =
      [⟨"user", [{ text := "read ./a.txt" }]⟩, fcTurn pC2,
       frTurn ⟨"c1", "read_file", [("content", .str "hi")]⟩,
       ⟨"model", [{ text := "done" }]⟩] ∧
    ∀ c ∈ (processWithToolLoop envC2 "m" "read ./a.txt" [] [] ⟨0, 0⟩).history,
      ∀ pt ∈ c.parts, pt.text ≠ "Let me check" := by
  refine ⟨rfl, rfl, ?_⟩
  decide

/-- C2 (amended): the TUI streaming loop does append the non-empty text
buffer as a model turn immediately before returning the first tool call
(and appends nothing when the buffer is empty); the CLI submit loop does
not — in an iteration with pending tool calls it appends only the
model-function-call turns (carrying the pending Parts verbatim) and the
user function-response turns, never a model-text turn from the buffer. -/
theorem c2_text_before_tool_calls_amended :
    (∀ (evs : List StreamEvent) (hist hist' : List Content) (buf : String)
       (fc : FunctionCall) (p : Option Part),
       tuiConsume evs hist buf = (.toolCall fc p, hist') →
       ((tuiBufAt evs buf).length > 0 ∧
         hist' = hist ++ [⟨"model", [{ text := tuiBufAt evs buf }]⟩]) ∨
       ((tuiBufAt evs buf).length = 0 ∧ hist' = hist)) ∧
    (∀ (env : Env) (st : LoopState) (ps : List Part),
      ∃ t, (execToolCalls env st ps).2.history = st.history ++ t ∧
        ∀ c ∈ t, (∃ p ∈ ps, c = fcTurn p) ∨ ∃ fr, c = frTurn fr) := by
  constructor
  · intro evs
    induction evs with
    | nil =>
      intro hist hist' buf fc p h
      rw [tuiConsume] at h
      exact absurd h (by simp)
    | cons e rest ih =>
      intro hist hist' buf fc p h
      rw [tuiConsume] at h
      by_cases herr : e.type = "error"
      · rw [if_pos herr] at h
        exact absurd h (by simp)
      · rw [if_neg herr] at h
        by_cases htc : e.type = "tool_call"
        · rw [if_pos htc] at h
          cases hcall : e.toolCall with
          | some fc0 =>
            rw [hcall] at h
            dsimp only at h
            have hbuf : tuiBufAt (e :: rest) buf = buf := by
              rw [tuiBufAt, if_neg herr, if_pos htc, hcall]
            rw [Prod.mk.injEq] at h
            obtain ⟨-, hh⟩ := h
            rw [hbuf]
            by_cases hlen : buf.length > 0
            · exact Or.inl ⟨hlen, by rw [← hh, if_pos hlen]⟩
            · exact Or.inr ⟨by omega, by rw [← hh, if_neg hlen]⟩
          | none =>
            rw [hcall] at h
            have hbuf : tuiBufAt (e :: rest) buf = tuiBufAt rest buf := by
              rw [tuiBufAt, if_neg herr, if_pos htc, hcall]
            rw [hbuf]
            exact ih hist hist' buf fc p h
        · rw [if_neg htc] at h
          by_cases hdone : e.type = "done"
          · rw [if_pos hdone] at h
            exact absurd h (by simp)
          · rw [if_neg hdone] at h
            have hbuf : tuiBufAt (e :: rest) buf =
                tuiBufAt rest (if e.text ≠ "" then buf ++ e.text else buf) := by
              rw [tuiBufAt, if_neg herr, if_neg htc, if_neg hdone]
            rw [hbuf]
            exact ih _ _ _ _ _ h
  · intro env st ps
    exact execToolCalls_history env ps st

/-- Witness for C2's amended theorem: a text chunk "hi" followed by a tool
call makes the TUI loop flush "hi" as a model turn before the tool-call
message. -/
theorem c2_text_before_tool_calls_amended_witness :
    ((tuiBufAt evsW "").length > 0 ∧
      ([(⟨"model", [{ text := "hi" }]⟩ : Content)] : List Content) =
        [] ++ [⟨"model", [{ text := tuiBufAt evsW "" }]⟩]) ∨
    ((tuiBufAt evsW "").length = 0 ∧
      ([(⟨"model", [{ text := "hi" }]⟩ : Content)] : List Content) = []) :=
  c2_text_before_tool_calls_amended.1 evsW [] [⟨"model", [{ text := "hi" }]⟩] ""
    fcC2 (some pC2) rfl

/-! ## Claim C3: fallback model is not reported back to the caller -/

/-- C3 (counterexample): requesting the pro model, the fallback policy
rotates to the flash model (as the ghost view of the loop-local
`modelName` shows), yet after the turn the caller's `effectiveModel` and
the auto-saved session `model` field still hold the originally requested
pro model — the actually-used model is not reported back. -/
theorem c3_counterexample :
    (processWithToolLoop envC3 "gemini-3-pro-preview" "x" [] [] ⟨0, 0⟩).result = .ok () ∧
    (processWithToolLoop envC3 "gemini-3-pro-preview" "x" [] [] ⟨0, 0⟩).ghostUsedModel =
      "gemini-3-flash-preview" ∧
    (chatTurn envC3 ⟨"gemini-3-pro-preview", [], [], ⟨0, 0⟩⟩ sess0 "x").2.model =
      "gemini-3-pro-preview" ∧
    (chatTurn envC3 ⟨"gemini-3-pro-preview", [], [], ⟨0, 0⟩⟩ sess0 "x").1.effectiveModel =
      "gemini-3-pro-preview" :=
  ⟨rfl, rfl, rfl, rfl⟩

/-- C3 (amended): `processWithToolLoop` takes the model name by value and
returns only an error, so the rotated model is used for later iterations
of the same submit only; after any REPL turn the caller's
`effectiveModel` is unchanged and the auto-saved session `model` field is
that unchanged caller model, never the fallback model. -/
theorem c3_fallback_not_reported_amended (env : Env) (cs : ChatState)
    (sess : Session) (line : String) :
    (chatTurn env cs sess line).1.effectiveModel = cs.effectiveModel ∧
    (chatTurn env cs sess line).2.model = cs.effectiveModel :=
  ⟨rfl, rfl⟩

/-! ## Claim C4: the iteration cap -/

/-- C4: a single submit issues at most `maxIterations = 10` backend calls
(one fallback-wrapped stream open per iteration), and a backend that
always answers with a pending tool call drives the loop to exactly 10
backend calls and the error "max tool iterations (10) reached". -/
theorem c4_iteration_cap :
    (∀ (env : Env) (m text : String) (h : List Content) (a : List String)
       (tk : Tokens),
      (processWithToolLoop env m text h a tk).ghostBackendCalls ≤ 10) ∧
    (processWithToolLoop envAdv "m" "x" [] [] ⟨0, 0⟩).result =
      .error "max tool iterations (10) reached" ∧
    (processWithToolLoop envAdv "m" "x" [] [] ⟨0, 0⟩).ghostBackendCalls = 10 := by
  refine ⟨?_, rfl, rfl⟩
  intro env m text h a tk
  rw [submit_calls_eq]
  exact loopAux_calls env maxIterations 0 m
    ⟨h ++ [⟨"user", [{ text := text }]⟩], a, tk, 0, 0⟩

/-! ## Claim C5: thought signatures are preserved byte-for-byte -/

/-- C5: when every tool-call event carries the full wire Part (as the
streaming client guarantees), every function-call Part in the history
after a submit — beyond those already in the starting history — is one of
the Parts delivered by the backend streams, appended verbatim; in
particular its `thought_signature` bytes are byte-for-byte the bytes the
backend emitted. -/
theorem c5_signature_preservation (env : Env) (m text : String)
    (h : List Content) (a : List String) (tk : Tokens)
    (henv : EnvFullParts env) :
    ∀ c ∈ (processWithToolLoop env m text h a tk).history,
      c ∈ h ∨ ∀ pt ∈ c.parts, pt.functionCall.isSome = true → deliveredBy env pt := by
  obtain ⟨t, ht, hparts⟩ := loopAux_parts env henv maxIterations 0 m
    ⟨h ++ [⟨"user", [{ text := text }]⟩], a, tk, 0, 0⟩
  have hsplit : ∀ c, c ∈ (h ++ [(⟨"user", [{ text := text }]⟩ : Content)]) ++ t →
      c ∈ h ∨ ∀ pt ∈ c.parts, pt.functionCall.isSome = true → deliveredBy env pt := by
    intro c hc
    rcases List.mem_append.1 hc with hc | hc
    · rcases List.mem_append.1 hc with hc | hc
      · exact Or.inl hc
      · simp only [List.mem_singleton] at hc
        subst hc
        refine Or.inr ?_
        intro pt hpt hsome
        simp at hpt
        obtain rfl := hpt
        simp at hsome
    · exact Or.inr (hparts c hc)
  cases hres : (loopAux env 0 maxIterations m
      ⟨h ++ [⟨"user", [{ text := text }]⟩], a, tk, 0, 0⟩).result with
  | ok u =>
    cases u
    intro c hc
    rw [submit_history_ok env m text h a tk hres, ht] at hc
    exact hsplit c hc
  | error e =>
    intro c hc
    rw [submit_history_err env m text h a tk e hres, ht] at hc
    exact hsplit c (List.take_subset _ _ hc)

/-- Witness for C5: in the concrete two-iteration environment whose first
stream carries a signed tool call, the guarantee holds of the resulting
history. -/
theorem c5_signature_preservation_witness :
    EnvFullParts envC5 ∧
    ∀ c ∈ (processWithToolLoop envC5 "m" "x" [] [] ⟨0, 0⟩).history,
      c ∈ ([] : List Content) ∨
        ∀ pt ∈ c.parts, pt.functionCall.isSome = true → deliveredBy envC5 pt := by
  have henv : EnvFullParts envC5 := by
    intro i mdl evs hcl e he htype hsome
    dsimp only [envC5] at hcl
    by_cases hi : i = 0
    · rw [if_pos hi] at hcl
      injection hcl with hevs
      subst hevs
      simp only [List.mem_singleton] at he
      subst he
      simp
    · rw [if_neg hi] at hcl
      injection hcl with hevs
      subst hevs
      simp only [List.mem_cons, List.mem_singleton, List.not_mem_nil, or_false] at he
      rcases he with rfl | rfl
      · simp at htype
      · simp at htype
  exact ⟨henv, c5_signature_preservation envC5 "m" "x" [] [] ⟨0, 0⟩ henv⟩

/-! ## Claim C6: an empty stream still appends an empty model turn -/

/-- C6 (counterexample): a stream that closes with a bare done event (no
text, no tool calls). Submit succeeds, but history does not hold the user
turn only: a model turn with empty text is appended, so the final history
has two turns. -/
theorem c6_counterexample :
    (processWithToolLoop envC6 "m" "hi" [] [] ⟨0, 0⟩).result = .ok () ∧
    (processWithToolLoop envC6 "m" "hi" [] [] ⟨0, 0⟩).history =
      [⟨"user", [{ text := "hi" }]⟩, ⟨"model", [{ text := "" }]⟩] ∧
    (processWithToolLoop envC6 "m" "hi" [] [] ⟨0, 0⟩).history.length ≠ 1 := by
  refine ⟨rfl, rfl, ?_⟩
  decide

/-- C6 (amended): when the first iteration's stream yields no text and no
tool calls, submit succeeds, but the code appends a model turn whose
single part is the empty text unconditionally: for history `h` the final
history is `h` plus the user turn plus an empty model-text turn (and not
the user turn alone). -/
theorem c6_empty_stream_amended (env : Env) (m text : String)
    (h : List Content) (a : List String) (tk tk' : Tokens)
    (evs : List StreamEvent) (um : String)
    (hgen : generateStreamWithFallback (env.clients 0) m = .ok (evs, um))
    (hcons : consumeStream evs "" [] tk = (.ok ("", []), tk')) :
    processWithToolLoop env m text h a tk =
      ⟨.ok (), h ++ [⟨"user", [{ text := text }]⟩, ⟨"model", [{ text := "" }]⟩],
       a, tk', 1, if um ≠ m then um else m⟩ := by
  have h10 : maxIterations = 9 + 1 := rfl
  dsimp only [processWithToolLoop]
  rw [h10, loopAux, hgen]
  dsimp only
  rw [hcons]
  simp [List.append_assoc]

/-- Witness for C6's amended theorem at the concrete done-only stream. -/
theorem c6_empty_stream_amended_witness :
    processWithToolLoop envC6 "m" "hi" [] [] ⟨0, 0⟩ =
      ⟨.ok (), [] ++ [⟨"user", [{ text := "hi" }]⟩, ⟨"model", [{ text := "" }]⟩],
       [], ⟨3, 2⟩, 1, if "m" ≠ "m" then "m" else "m"⟩ :=
  c6_empty_stream_amended envC6 "m" "hi" [] [] ⟨0, 0⟩ ⟨3, 2⟩ [doneEvC6] "m" rfl rfl

/-! ## Claim C8: session save/load round trip -/

theorem jsonToBytes_bytesToJson (bs : List Nat) :
    jsonToBytes (bytesToJson bs) = some bs := by
  induction bs with
  | nil => rfl
  | cons b t ih =>
    show (jsonToBytes (bytesToJson t)).map (fun t2 => ((b : Int)).toNat :: t2) =
      some (b :: t)
    rw [ih]
    simp

theorem sPartFromJson_sPartToJson (p : SPart) :
    sPartFromJson (sPartToJson p) = some p := by
  cases p with
  | text s => rfl
  | functionCall fc sig =>
    simp [sPartToJson, sPartFromJson, jsonToBytes_bytesToJson]
  | functionResp fr => rfl

theorem sPartsFromJson_map (ps : List SPart) :
    sPartsFromJson (ps.map sPartToJson) = some ps := by
  induction ps with
  | nil => rfl
  | cons p t ih => simp [sPartsFromJson, sPartFromJson_sPartToJson, ih]

theorem sContentFromJson_sContentToJson (c : SessionContent) :
    sContentFromJson (sContentToJson c) = some c := by
  simp [sContentToJson, sContentFromJson, sPartsFromJson_map]

theorem sContentsFromJson_map (cs : List SessionContent) :
    sContentsFromJson (cs.map sContentToJson) = some cs := by
  induction cs with
  | nil => rfl
  | cons c t ih => simp [sContentsFromJson, sContentFromJson_sContentToJson, ih]

theorem sessionFromJson_sessionToJson (s : Session) :
    sessionFromJson (sessionToJson s) = some s := by
  obtain ⟨id, name, mdl, ca, ua, msgs, ⟨ti, to2⟩⟩ := s
  by_cases hn : name = ""
  · subst hn
    have henc : sessionToJson ⟨id, "", mdl, ca, ua, msgs, ⟨ti, to2⟩⟩ =
        .obj [("id", .str id), ("model", .str mdl), ("created_at", .num ca),
              ("updated_at", .num ua), ("messages", .arr (msgs.map sContentToJson)),
              ("tokens", .obj [("input", .num ti), ("output", .num to2)])] := by
      simp [sessionToJson]
    rw [henc]
    have hdec : sessionFromJson (.obj [("id", .str id), ("model", .str mdl),
        ("created_at", .num ca), ("updated_at", .num ua),
        ("messages", .arr (msgs.map sContentToJson)),
        ("tokens", .obj [("input", .num ti), ("output", .num to2)])]) =
        (sContentsFromJson (msgs.map sContentToJson)).map
          (fun ms => ⟨id, "", mdl, ca, ua, ms, ⟨ti, to2⟩⟩) := rfl
    rw [hdec, sContentsFromJson_map]
    rfl
  · have henc : sessionToJson ⟨id, name, mdl, ca, ua, msgs, ⟨ti, to2⟩⟩ =
        .obj [("id", .str id), ("name", .str name), ("model", .str mdl),
              ("created_at", .num ca), ("updated_at", .num ua),
              ("messages", .arr (msgs.map sContentToJson)),
              ("tokens", .obj [("input", .num ti), ("output", .num to2)])] := by
      simp [sessionToJson, hn]
    rw [henc]
    have hdec : sessionFromJson (.obj [("id", .str id), ("name", .str name),
        ("model", .str mdl), ("created_at", .num ca), ("updated_at", .num ua),
        ("messages", .arr (msgs.map sContentToJson)),
        ("tokens", .obj [("input", .num ti), ("output", .num to2)])]) =
        (sContentsFromJson (msgs.map sContentToJson)).map
          (fun ms => ⟨id, name, mdl, ca, ua, ms, ⟨ti, to2⟩⟩) := rfl
    rw [hdec, sContentsFromJson_map]
    rfl

theorem find?_filter_of_imp {β : Type} (l : List β) (p q : β → Bool)
    (h : ∀ x, p x = true → q x = true) :
    (l.filter q).find? p = l.find? p := by
  induction l with
  | nil => rfl
  | cons a t ih =>
    by_cases hq : q a = true
    · rw [List.filter_cons_of_pos hq]
      by_cases hp : p a = true
      · rw [List.find?_cons_of_pos _ hp, List.find?_cons_of_pos _ hp]
      · rw [List.find?_cons_of_neg _ (by simp [hp]),
            List.find?_cons_of_neg _ (by simp [hp]), ih]
    · have hp : p a = false := by
        cases hpa : p a
        · rfl
        · exact absurd (h a hpa) (by simp [hq])
      rw [List.filter_cons_of_neg (by simp [hq]), ih,
          List.find?_cons_of_neg _ (by simp [hp])]

theorem storeGet_set_self (st : Store) (k : String) (v : JVal) :
    storeGet (storeSet st k v) k = some v := by
  simp [storeGet, storeSet, List.find?_cons_of_pos]

theorem storeGet_set_other (st : Store) (k k' : String) (v : JVal)
    (hne : k' ≠ k) :
    storeGet (storeSet st k v) k' = storeGet st k' := by
  unfold storeGet storeSet
  rw [List.find?_cons_of_neg _ (by simpa using Ne.symm hne)]
  rw [find?_filter_of_imp]
  intro x hx
  simp only [beq_iff_eq] at hx
  rw [hx]
  simpa using hne

/-- C8: saving a session and loading it back by its id yields the same
session in id, name, model, created_at, messages and token usage; only
`updated_at` differs, being set to the save time. The proviso that
messages hold only the specified part variants is captured by the
`SessionContent`/`SPart` message type. -/
theorem c8_session_round_trip (st : Store) (s : Session) (now : Int) :
    managerLoad (managerSave st s now).1 s.id = .ok { s with updatedAt := now } := by
  unfold managerSave managerLoad
  dsimp only
  by_cases hn : s.name = ""
  · rw [if_neg (by simp [hn])]
    rw [storeGet_set_self]
    dsimp only
    rw [sessionFromJson_sessionToJson]
  · rw [if_pos (by simp [hn])]
    by_cases hkey : s.name ++ ".json" = s.id ++ ".json"
    · rw [hkey, storeGet_set_self]
      dsimp only
      rw [sessionFromJson_sessionToJson]
    · rw [storeGet_set_other _ _ _ _ (fun h => hkey h.symm), storeGet_set_self]
      dsimp only
      rw [sessionFromJson_sessionToJson]

/-! ## Claim C9: shell output truncation -/

/-- C9: for a non-blank command, the stdout and stderr strings stored in
the shell result map are the captured outputs unchanged when they are at
most 50,000 bytes, and otherwise exactly the first 50,000 bytes followed
by the truncation marker. -/
theorem c9_shell_output_cap (command : List Nat) (timeoutArg : Option Int)
    (durationMs : Int) (run : ShellRun)
    (hcmd : trimSpaceBytes command ≠ []) :
    ∃ so se,
      rLookup (ShellToolExecute command timeoutArg durationMs run) "stdout" =
        some (.bytes so) ∧
      rLookup (ShellToolExecute command timeoutArg durationMs run) "stderr" =
        some (.bytes se) ∧
      (run.stdout.length ≤ maxOutput → so = run.stdout) ∧
      (run.stdout.length > maxOutput →
        so = run.stdout.take maxOutput ++ outputTruncMarker) ∧
      (run.stderr.length ≤ maxOutput → se = run.stderr) ∧
      (run.stderr.length > maxOutput →
        se = run.stderr.take maxOutput ++ outputTruncMarker) := by
  refine ⟨if run.stdout.length > maxOutput then
            run.stdout.take maxOutput ++ outputTruncMarker else run.stdout,
          if run.stderr.length > maxOutput then
            run.stderr.take maxOutput ++ outputTruncMarker else run.stderr,
          ?_, ?_, ?_, ?_, ?_, ?_⟩
  · unfold ShellToolExecute
    rw [if_neg hcmd]
    cases run.timedOut with
    | true => simp [rLookup]
    | false =>
      cases run.runErr with
      | noErr => simp [rLookup]
      | exitErr code => simp [rLookup]
      | otherErr msg => simp [rLookup]
  · unfold ShellToolExecute
    rw [if_neg hcmd]
    cases run.timedOut with
    | true => simp [rLookup]
    | false =>
      cases run.runErr with
      | noErr => simp [rLookup]
      | exitErr code => simp [rLookup]
      | otherErr msg => simp [rLookup]
  · intro hle
    rw [if_neg (by omega)]
  · intro hgt
    rw [if_pos hgt]
  · intro hle
    rw [if_neg (by omega)]
  · intro hgt
    rw [if_pos hgt]

/-- Witness for C9: the command "ls" is not blank, and the theorem applies
to a run whose stdout is 50,001 bytes. -/
theorem c9_shell_output_cap_witness :
    trimSpaceBytes (asciiBytes "ls") ≠ [] ∧
    ∃ so se,
      rLookup (ShellToolExecute (asciiBytes "ls") none 1 runC9) "stdout" =
        some (.bytes so) ∧
      rLookup (ShellToolExecute (asciiBytes "ls") none 1 runC9) "stderr" =
        some (.bytes se) ∧
      (runC9.stdout.length ≤ maxOutput → so = runC9.stdout) ∧
      (runC9.stdout.length > maxOutput →
        so = runC9.stdout.take maxOutput ++ outputTruncMarker) ∧
      (runC9.stderr.length ≤ maxOutput → se = runC9.stderr) ∧
      (runC9.stderr.length > maxOutput →
        se = runC9.stderr.take maxOutput ++ outputTruncMarker) :=
  ⟨by decide, c9_shell_output_cap (asciiBytes "ls") none 1 runC9 (by decide)⟩

end Gmn
